import Mathlib

/-!
Shallow embedding of the special-effects engine in src/spfx.c: the effect
catalog and the two effect-instance pools, the trail engine, and the
camera-shake spring simulator, together with theorems settling the spec
claims about them.

Real-valued quantities held in C doubles are embedded as exact rationals
where the code only adds, multiplies and compares them, and as real numbers
for the shake simulator, whose dynamics use sqrt, sin and cos.
-/

namespace Spfx

/-! ## Effect catalog and instance pools (spfx.c) -/

/-- One effect template, as in struct SPFX_Base: time to live and animation
duration in seconds, and the sprite sheet's frame grid. The texture itself is
an external resource; only its frame-grid dimensions (gfx->sx, gfx->sy, stored
as doubles holding integral counts and cast to int by the renderer) matter to
the code modelled here. -/
structure SPFX_Base where
  name : String
  ttl : ℚ
  anim : ℚ
  gfx_sx : ℤ
  gfx_sy : ℤ
deriving DecidableEq

/-- One live effect instance, as in struct SPFX. -/
structure SPFX where
  pos_x : ℚ
  pos_y : ℚ
  vel_x : ℚ
  vel_y : ℚ
  lastframe : ℤ
  effect : ℤ
  timer : ℚ
deriving DecidableEq

/-- Render/update layer selector passed to spfx_add and spfx_render. The C
interface passes an int; any value other than the two layer constants is the
invalid case. -/
inductive Layer where
  | front : Layer
  | back : Layer
  | invalid : Layer
deriving DecidableEq

/-- Linear scan of the catalog by name, as in spfx_get: index of the first
match, or -1 when the name is absent. -/
def spfx_get (effects : List SPFX_Base) (name : String) : ℤ :=
  match effects.findIdx? (fun e => e.name = name) with
  | some i => (i : ℤ)
  | none => -1

/-- Creation of a new effect instance, as in spfx_add. The bounds guard is
the source's: it rejects effect < 0 and effect > array_size(spfx_effects)
only. When the guard and the layer check pass, the template is read at index
effect; if that read is out of the catalog's bounds (the C reads past the end
of the array, which is undefined behaviour) the result is none. The random
draw RNGF(), uniform on [0,1), enters as the parameter r. The new instance's
lastframe field is left by the C in the uninitialised memory array_grow
returns; it is embedded as 0, and no theorem depends on it. -/
def spfx_add (effects : List SPFX_Base) (r : ℚ) (effect : ℤ)
    (px py vx vy : ℚ) (layer : Layer) (front back : List SPFX) :
    Option (List SPFX × List SPFX) :=
  if effect < 0 ∨ effect > (effects.length : ℤ) then
    some (front, back)
  else if layer = Layer.invalid then
    some (front, back)
  else
    match effects.get? effect.toNat with
    | none => none
    | some eff =>
      let timer := if eff.ttl ≠ eff.anim then eff.ttl + r * eff.anim else eff.ttl
      let inst : SPFX :=
        { pos_x := px, pos_y := py, vel_x := vx, vel_y := vy,
          lastframe := 0, effect := effect, timer := timer }
      if layer = Layer.front then some (front ++ [inst], back)
      else some (front, back ++ [inst])

/-- One tick of a pool, as in spfx_update_layer: each instance's timer is
decremented by dt; an instance whose new timer is below 0 is erased in place
(the erase-while-iterating of the C compacts survivors, preserving their
order); a survivor's position advances by dt times its velocity. -/
def spfx_update_layer (layer : List SPFX) (dt : ℚ) : List SPFX :=
  match layer with
  | [] => []
  | s :: rest =>
    let t := s.timer - dt
    if t < 0 then
      spfx_update_layer rest dt
    else
      { s with timer := t,
               pos_x := s.pos_x + dt * s.vel_x,
               pos_y := s.pos_y + dt * s.vel_y } :: spfx_update_layer rest dt

/-- One tick of both pools, as in spfx_update. -/
def spfx_update (dt : ℚ) (pools : List SPFX × List SPFX) : List SPFX × List SPFX :=
  (spfx_update_layer pools.1 dt, spfx_update_layer pools.2 dt)

/-- The per-instance transition spfx_update_layer applies to an instance that
survives the tick: timer decremented, position advanced. Used to characterise
the pool tick as map-then-filter. -/
def spfx_step (dt : ℚ) (s : SPFX) : SPFX :=
  { s with timer := s.timer - dt,
           pos_x := s.pos_x + dt * s.vel_x,
           pos_y := s.pos_y + dt * s.vel_y }

/-! ## Rendering (spfx_render) -/

/-- Truncation toward zero, the semantics of a C double-to-int cast and of
the integral part fmod subtracts. -/
def c_trunc (q : ℚ) : ℤ :=
  if q < 0 then ⌈q⌉ else ⌊q⌋

/-- C fmod on exact rationals: x minus y times the truncated quotient. -/
def fmodQ (x y : ℚ) : ℚ :=
  x - (c_trunc (x / y) : ℚ) * y

/-- One sprite-draw command emitted by the render loop: the gl_blitSprite
call's position and sprite-sheet cell (column, row), where the C computes
the cell with int division and remainder (truncated, as in C). -/
structure Draw where
  x : ℚ
  y : ℚ
  cell_col : ℤ
  cell_row : ℤ
deriving DecidableEq

/-- Frame index the render loop stores in lastframe, as in spfx_render: when
paused the cached value is kept, otherwise sx * sy * MIN(time, 1) truncated
by the int assignment, with time = 1 - fmod(timer, anim) / anim. -/
def spfx_render_frame (paused : Bool) (eff : SPFX_Base) (s : SPFX) : ℤ :=
  if paused then s.lastframe
  else c_trunc ((eff.gfx_sx * eff.gfx_sy : ℚ) *
    min (1 - fmodQ s.timer eff.anim / eff.anim) 1)

/-- Rendering of a single instance, as in the body of the loop of
spfx_render: the template is read (unchecked in the C, so an out-of-bounds
effect index is undefined behaviour, embedded as none), the frame index is
selected, cached in lastframe, and the draw uses cell
(lastframe % sx, lastframe / sx). -/
def spfx_render_one (paused : Bool) (effects : List SPFX_Base) (s : SPFX) :
    Option (Draw × SPFX) :=
  if s.effect < 0 then none
  else
    match effects.get? s.effect.toNat with
    | none => none
    | some eff =>
      let lf := spfx_render_frame paused eff s
      some ({ x := s.pos_x, y := s.pos_y,
              cell_col := Int.tmod lf eff.gfx_sx,
              cell_row := Int.tdiv lf eff.gfx_sx },
            { s with lastframe := lf })

/-- Rendering of a whole layer, as in spfx_render: the pool is walked from
the last element down to the first, each instance emitting one draw and
caching its frame index in place. The result pairs the draw list (in emission
order) with the pool after the lastframe updates (in its original order). -/
def spfx_render (paused : Bool) (effects : List SPFX_Base) (stack : List SPFX) :
    Option (List Draw × List SPFX) :=
  match stack.reverse.mapM (spfx_render_one paused effects) with
  | none => none
  | some pairs => some (pairs.map Prod.fst, (pairs.map Prod.snd).reverse)

/-! ## Trails (spfx_trail_create, spfx_trail_update, spfx_trail_grow) -/

/-- An RGBA colour, as in glColour. -/
structure glColour where
  r : ℚ
  g : ℚ
  b : ℚ
  a : ℚ
deriving DecidableEq

/-- One trail control point, as in struct trailPoint: position, colour, age. -/
structure trailPoint where
  p_x : ℚ
  p_y : ℚ
  c : glColour
  t : ℚ
deriving DecidableEq

/-- A trail, as in struct Trail_spfx: the ordered point sequence, oldest
first. -/
structure Trail_spfx where
  points : List trailPoint
deriving DecidableEq

/-- Creation of an empty trail, as in spfx_trail_create. -/
def spfx_trail_create : Trail_spfx :=
  { points := [] }

/-- Appending a control point of age 0 at the tail, as in spfx_trail_grow. -/
def spfx_trail_grow (trail : Trail_spfx) (px py : ℚ) (col : glColour) : Trail_spfx :=
  { points := trail.points ++ [{ p_x := px, p_y := py, c := col, t := 0 }] }

/-- Ageing of a single trail point by dt, the loop body of the first pass of
spfx_trail_update. -/
def trail_age (dt : ℚ) (p : trailPoint) : trailPoint :=
  { p with t := p.t + dt }

/-- One trail tick, as in spfx_trail_update, returning the updated trail and
the grow flag. An empty trail returns immediately with the flag set. Otherwise
every point ages by dt; the flag is set when the tail point's age exceeds 2;
then the trim loop scans indices from the tail down and, at the first (hence
highest) index whose age exceeds 50, erases the index range strictly before it
and breaks. The erase helper (array.h, not part of this excerpt) is modelled
from the spec: it removes the half-open range [first, last), as the spec's
pool-update description requires (erasing exactly one element per expiry via
the range from element i to element i + 1), so the cut drops the points
strictly before the qualifying one and keeps that point itself. -/
def spfx_trail_update (trail : Trail_spfx) (dt : ℚ) : Trail_spfx × Bool :=
  if trail.points.length = 0 then
    (trail, true)
  else
    let pts := trail.points.map (trail_age dt)
    let grow : Bool :=
      match pts.getLast? with
      | some p => decide (p.t > 2)
      | none => false
    let pts2 :=
      match pts.reverse.findIdx? (fun p => decide (p.t > 50)) with
      | some j => pts.drop (pts.length - 1 - j)
      | none => pts
    ({ points := pts2 }, grow)

/-- Discarding of a trail's points, as in spfx_trail_remove. -/
def spfx_trail_remove (_trail : Trail_spfx) : Trail_spfx :=
  { points := [] }

/-! ## Camera shake (spfx_updateShake, spfx_shake, spfx_begin, spfx_clear)

The shake spring works on C doubles through sqrt, sin and cos, so this part
of the embedding lives in the real numbers. -/

/-- A 2D vector as used by the shake simulator (struct Vector2d, restricted
to its x and y components). -/
structure Vec2 where
  x : ℝ
  y : ℝ

/-- Modelled from the spec: the Euclidean magnitude VMOD of a 2D vector,
maintained by the vector helpers of physics.c, which are not part of this
excerpt; the spec reads the settlement test as bounds on the magnitudes of
position and velocity. -/
noncomputable def vmod (v : Vec2) : ℝ :=
  Real.sqrt (v.x ^ 2 + v.y ^ 2)

/-- Shake mass, as in SHAKE_MASS. -/
noncomputable def SHAKE_MASS : ℝ := 1 / 400

/-- Spring constant, as in SHAKE_K. -/
noncomputable def SHAKE_K : ℝ := 1 / 50

/-- Dampener constant, as in SHAKE_B. -/
noncomputable def SHAKE_B : ℝ := 3 * Real.sqrt (SHAKE_K * SHAKE_MASS)

/-- Modelled from the spec: the constants SHAKE_DECAY and SHAKE_MAX (defined
in spfx.h, which is not part of this excerpt; the spec gives only a fixed
decay rate and a clamp maximum), the 1D coherent-noise source the spec asks
to abstract behind a directional-perturbation interface, and the random draw
RNGF() used to rewind the noise phase when it overflows. -/
structure ShakeConsts where
  decay : ℝ
  maxForce : ℝ
  noise : ℝ → ℝ
  angReset : ℝ

/-- The process-wide shake state: spring position and velocity, decaying
force modifier, noise phase, the shake_off inactivity flag, the shake_set
frame-commitment flag and the haptic cooldown timer. -/
structure ShakeState where
  pos : Vec2
  vel : Vec2
  force_mod : ℝ
  force_ang : ℝ
  off : Bool
  shakeSet : Bool
  hapticLast : ℝ

/-- The initial shake state: everything at rest and inactive, matching the
static initialisers of spfx.c. -/
def shake_init : ShakeState :=
  { pos := ⟨0, 0⟩, vel := ⟨0, 0⟩, force_mod := 0, force_ang := 0,
    off := true, shakeSet := false, hapticLast := 0 }

/-- The decayed force modifier a tick computes before the settlement check,
as in spfx_updateShake: a positive modifier decreases by decay times dt and
clamps at zero from below; a non-positive one is untouched. -/
noncomputable def shakeDecayed (c : ShakeConsts) (dt : ℝ) (s : ShakeState) : ℝ :=
  if s.force_mod > 0 then
    if s.force_mod - c.decay * dt < 0 then 0 else s.force_mod - c.decay * dt
  else s.force_mod

/-- The forced flag a tick computes, as in spfx_updateShake: set exactly when
the force modifier was positive and its decayed value did not drop below
zero. -/
def shakeForced (c : ShakeConsts) (dt : ℝ) (s : ShakeState) : Prop :=
  s.force_mod > 0 ∧ ¬ (s.force_mod - c.decay * dt < 0)

noncomputable instance shakeForcedDec (c : ShakeConsts) (dt : ℝ) (s : ShakeState) :
    Decidable (shakeForced c dt s) := by
  unfold shakeForced
  exact inferInstance

/-- One integration tick of the shake spring, as in spfx_updateShake: no-op
when inactive; otherwise the force modifier decays; if not forced and both
magnitudes are below 0.01 the simulator deactivates (rewinding the noise
phase when it has grown past 1e3) and returns with position and velocity as
they are; otherwise the spring force (plus, when forced, the noise-directed
perturbation at the advanced phase) integrates velocity and then position. -/
noncomputable def spfx_updateShake (c : ShakeConsts) (dt : ℝ) (s : ShakeState) :
    ShakeState :=
  if s.off then s
  else
    let fm := shakeDecayed c dt s
    if ¬ shakeForced c dt s ∧ vmod s.pos < 0.01 ∧ vmod s.vel < 0.01 then
      { s with off := true, force_mod := fm,
               force_ang := if s.force_ang > 1000 then c.angReset else s.force_ang }
    else
      let fang := if shakeForced c dt s then s.force_ang + dt else s.force_ang
      let angle := c.noise fang * 5 * Real.pi
      let fx := -SHAKE_K * s.pos.x + -SHAKE_B * s.vel.x +
                (if shakeForced c dt s then fm * Real.cos angle else 0)
      let fy := -SHAKE_K * s.pos.y + -SHAKE_B * s.vel.y +
                (if shakeForced c dt s then fm * Real.sin angle else 0)
      let vx := s.vel.x + (1 / SHAKE_MASS) * fx * dt
      let vy := s.vel.y + (1 / SHAKE_MASS) * fy * dt
      { s with pos := ⟨s.pos.x + vx * dt, s.pos.y + vy * dt⟩,
               vel := ⟨vx, vy⟩, force_mod := fm, force_ang := fang }

/-- Raising of the rumble level, as in spfx_shake: the modifier is added to
the force modifier, clamped at the maximum, and the simulator is marked
active. The coupled haptic call touches only the optional external device
(absent here, its effect id stays -1) and is a no-op on this state. -/
noncomputable def spfx_shake (c : ShakeConsts) (mod : ℝ) (s : ShakeState) : ShakeState :=
  let fm := s.force_mod + mod
  { s with force_mod := if fm > c.maxForce then c.maxForce else fm, off := false }

/-- The reset of the shake state performed by spfx_clear: committed flag and
activity off, force modifier zero, position and velocity nulled. The noise
phase and the haptic timer are left as they are. -/
def spfx_clear_shake (s : ShakeState) : ShakeState :=
  { s with shakeSet := false, off := true, force_mod := 0,
           pos := ⟨0, 0⟩, vel := ⟨0, 0⟩ }

/-- The current shake offset, as in spfx_getShake: the origin when inactive,
the spring position otherwise. -/
noncomputable def spfx_getShake (s : ShakeState) : ℝ × ℝ :=
  if s.off then (0, 0) else (s.pos.x, s.pos.y)

/-- Minimum sub-step rate, as in shake_fps_min. -/
def shake_fps_min : ℚ := 1 / 10

/-- The sub-step sizes spfx_begin feeds to spfx_updateShake for a frame of
length dt, in call order: the control loop consumes steps of shake_fps_min
while more than shake_fps_min remains, then one leftover step; a dt of at
most shake_fps_min is consumed in a single step. -/
def shakeSteps (dt : ℚ) : List ℚ :=
  if h : dt > shake_fps_min then shake_fps_min :: shakeSteps (dt - shake_fps_min)
  else [dt]
termination_by (⌈dt * 10⌉).toNat
decreasing_by
  have h10 : (1 : ℚ) < dt * 10 := by
    unfold shake_fps_min at h
    linarith
  have hceil : (1 : ℤ) < ⌈dt * 10⌉ := Int.lt_ceil.mpr (by exact_mod_cast h10)
  have heq : (dt - shake_fps_min) * 10 = dt * 10 - 1 := by
    unfold shake_fps_min
    ring
  rw [heq, Int.ceil_sub_one]
  omega

/-- The frame bracket opening, as in spfx_begin: the committed flag drops; an
inactive simulator returns at once; otherwise the haptic cooldown decreases by
the real delta when pending, the spring is sub-stepped over shakeSteps dt, and
the committed flag is raised with the view offset. -/
noncomputable def spfx_begin (c : ShakeConsts) (dt real_dt : ℚ) (s : ShakeState) :
    ShakeState :=
  let s0 := { s with shakeSet := false }
  if s0.off then s0
  else
    let s1 := if s0.hapticLast > 0 then { s0 with hapticLast := s0.hapticLast - (real_dt : ℝ) }
              else s0
    let s2 := (shakeSteps dt).foldl (fun st d => spfx_updateShake c (d : ℝ) st) s1
    { s2 with shakeSet := true }

/-- The whole engine state touched by spfx_clear: the template catalog, the
two instance pools and the shake state. -/
structure SpfxState where
  effects : List SPFX_Base
  front : List SPFX
  back : List SPFX
  shake : ShakeState

/-- The clear operation, as in spfx_clear: its body resets only the rumble
state; the two instance pools and the catalog are not touched. -/
def spfx_clear (st : SpfxState) : SpfxState :=
  { st with shake := spfx_clear_shake st.shake }

/-- The shake states reachable through the module's interface: the initial
state, and closure under spfx_clear, spfx_shake with a non-negative modifier
and spfx_updateShake with a non-negative tick. -/
inductive ShakeReach (c : ShakeConsts) : ShakeState → Prop where
  | init : ShakeReach c shake_init
  | clear {s : ShakeState} : ShakeReach c s → ShakeReach c (spfx_clear_shake s)
  | shake {s : ShakeState} (m : ℝ) (hm : 0 ≤ m) :
      ShakeReach c s → ShakeReach c (spfx_shake c m s)
  | update {s : ShakeState} (dt : ℝ) (hdt : 0 ≤ dt) :
      ShakeReach c s → ShakeReach c (spfx_updateShake c dt s)

/-! ## Concrete constants and states used to evaluate the shake simulator -/

/-- A concrete instantiation of the spec-modelled shake constants: unit decay
rate, unit clamp, a silent noise source and a zero phase rewind. -/
noncomputable def shakeConstsEx : ShakeConsts :=
  { decay := 1, maxForce := 1, noise := fun _ => 0, angReset := 0 }

/-- The state after spfx_shake with modifier 1/200 from rest. -/
noncomputable def shakeStateA : ShakeState :=
  { pos := ⟨0, 0⟩, vel := ⟨0, 0⟩, force_mod := 1 / 200, force_ang := 0,
    off := false, shakeSet := false, hapticLast := 0 }

/-- The state one forced tick of 1/250 later: the perturbation (directed
along the x axis by the silent noise source) has kicked velocity and
position. -/
noncomputable def shakeStateB : ShakeState :=
  { pos := ⟨1 / 156250, 0⟩, vel := ⟨1 / 625, 0⟩, force_mod := 1 / 1000,
    force_ang := 1 / 250, off := false, shakeSet := false, hapticLast := 0 }

/-- The state one further tick of 1/250 later: the force has decayed to zero
and the settlement check has deactivated the simulator, leaving position and
velocity as they were. -/
noncomputable def shakeStateC : ShakeState :=
  { pos := ⟨1 / 156250, 0⟩, vel := ⟨1 / 625, 0⟩, force_mod := 0,
    force_ang := 1 / 250, off := true, shakeSet := false, hapticLast := 0 }

/-- An active state with a small non-zero displacement and no force, used to
evaluate the settlement step. -/
noncomputable def shakeStateD : ShakeState :=
  { pos := ⟨1 / 200, 0⟩, vel := ⟨0, 0⟩, force_mod := 0, force_ang := 0,
    off := false, shakeSet := false, hapticLast := 0 }

/-! ## Theorems — effect pools -/

/-- C1: the bounds guard of spfx_add tests effect > array_size instead of
effect >= array_size, so a spawn at effect index equal to the catalog size is
not the warned no-op the spec requires: the guard passes, an instance is
appended and the template is read one past the end of the catalog, which in
the C is an out-of-bounds read (undefined behaviour, embedded as none). The
claim is evaluated here at a one-template catalog with effect index 1. -/
theorem spfx_add_effect_eq_size_oob :
    spfx_add [⟨"explosion", 1, 1, 4, 4⟩] 0 1 0 0 0 0 Layer.front [] [] = none := by
  decide

/-- C4: spfx_clear does not empty the effect pools. Despite its doc comment
(it claims to clear all the currently running effects) its body only resets
the rumble state, so a non-empty front pool survives a clear unchanged. -/
theorem spfx_clear_keeps_front_pool :
    (spfx_clear { effects := [⟨"explosion", 1, 1, 4, 4⟩],
                  front := [⟨0, 0, 0, 0, 0, 0, 1⟩], back := [],
                  shake := shake_init }).front = [⟨0, 0, 0, 0, 0, 0, 1⟩] ∧
    ([(⟨0, 0, 0, 0, 0, 0, 1⟩ : SPFX)] : List SPFX) ≠ [] :=
  ⟨rfl, by decide⟩

/-- C5: a successful spawn sets the instance timer to ttl when ttl equals
anim, and to ttl plus the uniform draw r times anim otherwise, which for a
positive anim and r in [0, 1) lies in [ttl, ttl + anim). -/
theorem spfx_add_timer_policy
    (effects : List SPFX_Base) (r : ℚ) (effect : ℤ) (px py vx vy : ℚ)
    (layer : Layer) (front back : List SPFX) (eff : SPFX_Base)
    (hr0 : 0 ≤ r) (hr1 : r < 1) (he0 : 0 ≤ effect)
    (hget : effects.get? effect.toNat = some eff) (hl : layer ≠ Layer.invalid) :
    ∃ inst : SPFX,
      spfx_add effects r effect px py vx vy layer front back =
        some (if layer = Layer.front then (front ++ [inst], back)
              else (front, back ++ [inst])) ∧
      (eff.ttl = eff.anim → inst.timer = eff.ttl) ∧
      (eff.ttl ≠ eff.anim →
        inst.timer = eff.ttl + r * eff.anim ∧
        (0 < eff.anim → eff.ttl ≤ inst.timer ∧ inst.timer < eff.ttl + eff.anim)) := by
  have hlen : effect.toNat < effects.length := by
    by_contra hge
    rw [List.get?_eq_none.mpr (le_of_not_lt hge)] at hget
    exact Option.noConfusion hget
  have hguard : ¬ (effect < 0 ∨ effect > (effects.length : ℤ)) := by omega
  refine ⟨{ pos_x := px, pos_y := py, vel_x := vx, vel_y := vy,
            lastframe := 0, effect := effect,
            timer := if eff.ttl ≠ eff.anim then eff.ttl + r * eff.anim else eff.ttl },
          ?_, ?_, ?_⟩
  · unfold spfx_add
    rw [if_neg hguard, if_neg hl]
    simp only [hget]
    split <;> rfl
  · intro heq
    simp [heq]
  · intro hne
    constructor
    · simp [hne]
    · intro hanim
      have h1 : 0 ≤ r * eff.anim := mul_nonneg hr0 (le_of_lt hanim)
      have h2 : r * eff.anim < 1 * eff.anim := mul_lt_mul_of_pos_right hr1 hanim
      constructor
      · simp only [if_pos hne]
        linarith
      · simp only [if_pos hne]
        linarith

/-- Witness for C5 at a concrete catalog with ttl 2, anim 1 and draw 1/2. -/
theorem spfx_add_timer_policy_witness :
    (0 : ℚ) ≤ 1 / 2 ∧ (1 / 2 : ℚ) < 1 ∧ (0 : ℤ) ≤ 0 ∧
    ([(⟨"burst", 2, 1, 4, 4⟩ : SPFX_Base)].get? (Int.toNat 0) =
      some (⟨"burst", 2, 1, 4, 4⟩ : SPFX_Base)) ∧
    Layer.front ≠ Layer.invalid ∧
    (∃ inst : SPFX,
      spfx_add [⟨"burst", 2, 1, 4, 4⟩] (1 / 2) 0 0 0 0 0 Layer.front [] [] =
        some (if Layer.front = Layer.front then (([] : List SPFX) ++ [inst], ([] : List SPFX))
              else ([], [] ++ [inst])) ∧
      ((2 : ℚ) = 1 → inst.timer = 2) ∧
      ((2 : ℚ) ≠ 1 →
        inst.timer = 2 + 1 / 2 * 1 ∧
        ((0 : ℚ) < 1 → (2 : ℚ) ≤ inst.timer ∧ inst.timer < 2 + 1))) :=
  ⟨by norm_num, by norm_num, le_refl 0, by decide, by decide,
    spfx_add_timer_policy [⟨"burst", 2, 1, 4, 4⟩] (1 / 2) 0 0 0 0 0
      Layer.front [] [] ⟨"burst", 2, 1, 4, 4⟩
      (by norm_num) (by norm_num) (le_refl 0) (by decide) (by decide)⟩

/-- A pool tick with dt = 0 is the identity on a pool whose timers are all
non-negative: the timer decrement is by zero, the strict removal test fires
for no element, and the position advance adds zero. -/
theorem spfx_update_layer_zero (layer : List SPFX) (h : ∀ s ∈ layer, 0 ≤ s.timer) :
    spfx_update_layer layer 0 = layer := by
  induction layer with
  | nil => rfl
  | cons s rest ih =>
    have hs : 0 ≤ s.timer := h s (List.mem_cons_self s rest)
    have hneg : ¬ s.timer - 0 < 0 := by linarith
    simp only [spfx_update_layer, if_neg hneg]
    rw [ih (fun x hx => h x (List.mem_cons_of_mem s hx))]
    congr 1
    cases s
    simp

/-- C9: any number of pool updates with dt = 0 leaves both pools exactly as
they are, provided every timer is non-negative (as it is for every spawned
and surviving instance): nothing is removed and no position or timer
changes. -/
theorem spfx_update_zero_iterated (front back : List SPFX) (n : ℕ)
    (hf : ∀ s ∈ front, 0 ≤ s.timer) (hb : ∀ s ∈ back, 0 ≤ s.timer) :
    (spfx_update 0)^[n] (front, back) = (front, back) := by
  induction n with
  | zero => rfl
  | succ n ih =>
    have h1 : spfx_update 0 (front, back) = (front, back) := by
      unfold spfx_update
      rw [spfx_update_layer_zero front hf, spfx_update_layer_zero back hb]
    rw [Function.iterate_succ_apply, h1, ih]

/-- Witness for C9 at a one-instance front pool iterated three times. -/
theorem spfx_update_zero_iterated_witness :
    (∀ s ∈ [(⟨0, 0, 0, 0, 0, 0, 1⟩ : SPFX)], 0 ≤ s.timer) ∧
    (∀ s ∈ ([] : List SPFX), 0 ≤ s.timer) ∧
    (spfx_update 0)^[3] ([⟨0, 0, 0, 0, 0, 0, 1⟩], []) = ([⟨0, 0, 0, 0, 0, 0, 1⟩], []) :=
  ⟨by decide, by decide,
    spfx_update_zero_iterated [⟨0, 0, 0, 0, 0, 0, 1⟩] [] 3 (by decide) (by decide)⟩

/-- C10: the pool tick equals applying the per-instance step to every
instance and then filtering out the expired ones, so the surviving instances
keep their relative insertion order: the erase-while-iterating compaction
never reorders survivors. -/
theorem spfx_update_layer_map_filter (layer : List SPFX) (dt : ℚ) :
    spfx_update_layer layer dt =
      (layer.map (spfx_step dt)).filter (fun s => ! decide (s.timer < 0)) := by
  induction layer with
  | nil => rfl
  | cons s rest ih =>
    simp only [List.map_cons, List.filter_cons, spfx_update_layer, spfx_step]
    by_cases hc : s.timer - dt < 0
    · rw [if_pos hc, ih]
      simp [hc]
    · rw [if_neg hc, ih]
      simp [hc]

/-! ## Theorems — trails -/

/-- Dropping all but the last element of a non-empty list leaves exactly its
last element. -/
theorem drop_length_pred {α : Type} (l : List α) (h : l ≠ []) :
    l.drop (l.length - 1) = [l.getLast h] := by
  induction l with
  | nil => exact absurd rfl h
  | cons a t ih =>
    cases t with
    | nil => rfl
    | cons b t2 =>
      have hne : b :: t2 ≠ [] := by simp
      have : (a :: b :: t2).drop ((a :: b :: t2).length - 1) =
          (b :: t2).drop ((b :: t2).length - 1) := by
        simp [List.length_cons]
      rw [this, ih hne, List.getLast_cons hne]

/-- C8: the grow flag of a trail tick is set exactly when the trail was empty
at entry or the tail point's age, increased by dt, exceeds 2. -/
theorem spfx_trail_update_needsGrowth (trail : Trail_spfx) (dt : ℚ) :
    (spfx_trail_update trail dt).2 = true ↔
      trail.points = [] ∨ ∃ p, trail.points.getLast? = some p ∧ p.t + dt > 2 := by
  rcases hpts : trail.points with _ | ⟨a, l⟩
  · simp [spfx_trail_update, hpts]
  · have hne : ¬ trail.points.length = 0 := by
      rw [hpts]
      simp
    rcases hlast : trail.points.getLast? with _ | p
    · rw [List.getLast?_eq_none_iff, hpts] at hlast
      exact absurd hlast (by simp)
    · unfold spfx_trail_update
      rw [if_neg hne]
      simp only [List.getLast?_map, hlast, Option.map_some']
      rw [hpts] at hlast
      constructor
      · intro hg
        refine Or.inr ⟨p, hlast, ?_⟩
        simpa [trail_age] using hg
      · intro hg
        rcases hg with hg | ⟨q, hq, hgt⟩
        · exact absurd hg (by simp)
        · rw [hlast, Option.some.injEq] at hq
          subst hq
          simpa [trail_age] using hgt

/-- C2 counterexample: a trail with ages 0, 10, 60 and a tick of 0. The trim
erases only the points strictly before the first over-age point found
scanning tail-to-head, so the 60-aged tail point itself survives: the trail
does not become empty as the claim requires, it retains exactly the
qualifying point. -/
theorem trail_tail_over_limit_not_emptied :
    (spfx_trail_update
      { points := [{ p_x := 0, p_y := 0, c := ⟨0, 0, 0, 0⟩, t := 0 },
                   { p_x := 0, p_y := 0, c := ⟨0, 0, 0, 0⟩, t := 10 },
                   { p_x := 0, p_y := 0, c := ⟨0, 0, 0, 0⟩, t := 60 }] } 0).1.points =
      [{ p_x := 0, p_y := 0, c := ⟨0, 0, 0, 0⟩, t := 60 }] := by
  norm_num [spfx_trail_update, trail_age, List.findIdx?_cons]

/-- C2 (amended): scanning tail-to-head, the first point whose aged value
exceeds 50 triggers a single contiguous trim of all points strictly before it
and the scan stops, the qualifying point itself being kept; in particular a
trail whose tail point ages past 50 is reduced to exactly that aged tail
point. -/
theorem spfx_trail_update_tail_cut (trail : Trail_spfx) (dt : ℚ)
    (h : trail.points ≠ [])
    (hcut : (trail.points.getLast h).t + dt > 50) :
    (spfx_trail_update trail dt).1.points =
      [{ trail.points.getLast h with t := (trail.points.getLast h).t + dt }] := by
  have hne : ¬ trail.points.length = 0 := by
    simpa [List.length_eq_zero] using h
  have hmapne : trail.points.map (trail_age dt) ≠ [] := by
    simpa using h
  have hlast2 : (trail.points.map (trail_age dt)).getLast? =
      some (trail_age dt (trail.points.getLast h)) := by
    rw [List.getLast?_map, List.getLast?_eq_getLast trail.points h, Option.map_some']
  have hrevne : (trail.points.map (trail_age dt)).reverse ≠ [] := by
    simpa using hmapne
  obtain ⟨b, rest, hrev⟩ :
      ∃ b rest, (trail.points.map (trail_age dt)).reverse = b :: rest := by
    rcases hx : (trail.points.map (trail_age dt)).reverse with _ | ⟨b, rest⟩
    · exact absurd hx hrevne
    · exact ⟨b, rest, rfl⟩
  have hb : b = trail_age dt (trail.points.getLast h) := by
    have hhead : (trail.points.map (trail_age dt)).reverse.head? = some b := by
      rw [hrev]
      rfl
    rw [List.head?_reverse, hlast2] at hhead
    exact (Option.some_injective _ hhead).symm
  have hpredb : decide (b.t > 50) = true := by
    rw [hb]
    simpa [trail_age] using hcut
  have hidx : (trail.points.map (trail_age dt)).reverse.findIdx?
      (fun p => decide (p.t > 50)) = some 0 := by
    rw [hrev]
    simp [List.findIdx?_cons, hpredb]
  have hgl : (trail.points.map (trail_age dt)).getLast hmapne =
      trail_age dt (trail.points.getLast h) := by
    have h1 : (trail.points.map (trail_age dt)).getLast? =
        some ((trail.points.map (trail_age dt)).getLast hmapne) :=
      List.getLast?_eq_getLast _ hmapne
    rw [hlast2] at h1
    exact (Option.some_injective _ h1).symm
  unfold spfx_trail_update
  rw [if_neg hne]
  simp only [hidx, Nat.sub_zero]
  rw [drop_length_pred (trail.points.map (trail_age dt)) hmapne, hgl]
  rfl

/-- Witness for the amended C2 at the ages 0, 10, 60 and a tick of 0. -/
theorem spfx_trail_update_tail_cut_witness :
    ((spfx_trail_update
      { points := [{ p_x := 0, p_y := 0, c := ⟨0, 0, 0, 0⟩, t := 0 },
                   { p_x := 0, p_y := 0, c := ⟨0, 0, 0, 0⟩, t := 10 },
                   { p_x := 0, p_y := 0, c := ⟨0, 0, 0, 0⟩, t := 55 }] } 0).1.points =
      [{ p_x := 0, p_y := 0, c := ⟨0, 0, 0, 0⟩, t := 55 }]) := by
  have h : ({ points := [{ p_x := 0, p_y := 0, c := ⟨0, 0, 0, 0⟩, t := 0 },
                 { p_x := 0, p_y := 0, c := ⟨0, 0, 0, 0⟩, t := 10 },
                 { p_x := 0, p_y := 0, c := ⟨0, 0, 0, 0⟩, t := 55 }] } : Trail_spfx).points ≠ [] := by
    simp
  have := spfx_trail_update_tail_cut
    { points := [{ p_x := 0, p_y := 0, c := ⟨0, 0, 0, 0⟩, t := 0 },
                 { p_x := 0, p_y := 0, c := ⟨0, 0, 0, 0⟩, t := 10 },
                 { p_x := 0, p_y := 0, c := ⟨0, 0, 0, 0⟩, t := 55 }] } 0
    h (by norm_num [List.getLast])
  simpa [List.getLast] using this

/-! ## Theorems — shake sub-stepping -/

/-- C6: for a positive frame delta the sub-step sizes spfx_begin feeds to the
shake tick are each at most the fixed maximum shake_fps_min = 1/10, sum to dt
exactly, and consist of full-size steps of 1/10 followed by one positive
partial step of at most 1/10 for the remainder; a dt of at most 1/10 is
consumed in the single step [dt]. -/
theorem spfx_begin_substeps (dt : ℚ) (hdt : 0 < dt) :
    (∀ x ∈ shakeSteps dt, x ≤ shake_fps_min) ∧
    (shakeSteps dt).sum = dt ∧
    (∃ n : ℕ, shakeSteps dt = List.replicate n shake_fps_min ++ [dt - n * shake_fps_min] ∧
      0 < dt - n * shake_fps_min ∧ dt - n * shake_fps_min ≤ shake_fps_min) ∧
    (dt ≤ shake_fps_min → shakeSteps dt = [dt]) := by
  induction dt using shakeSteps.induct with
  | case1 dt hgt ih =>
    have hpos : 0 < dt - shake_fps_min := by
      unfold shake_fps_min at hgt ⊢
      linarith
    obtain ⟨hall, hsum, ⟨n, hrep, hrem0, hrem1⟩, _⟩ := ih hpos
    have hstep : shakeSteps dt = shake_fps_min :: shakeSteps (dt - shake_fps_min) := by
      rw [shakeSteps, dif_pos hgt]
    refine ⟨?_, ?_, ⟨n + 1, ?_, ?_, ?_⟩, ?_⟩
    · intro x hx
      rw [hstep] at hx
      rcases List.mem_cons.mp hx with hx | hx
      · rw [hx]
      · exact hall x hx
    · rw [hstep, List.sum_cons, hsum]
      ring
    · rw [hstep, hrep, List.replicate_succ, List.cons_append]
      have : dt - shake_fps_min - n * shake_fps_min = dt - (n + 1 : ℕ) * shake_fps_min := by
        push_cast
        ring
      rw [this]
    · have : dt - (n + 1 : ℕ) * shake_fps_min = dt - shake_fps_min - n * shake_fps_min := by
        push_cast
        ring
      rw [this]
      exact hrem0
    · have : dt - (n + 1 : ℕ) * shake_fps_min = dt - shake_fps_min - n * shake_fps_min := by
        push_cast
        ring
      rw [this]
      exact hrem1
    · intro hle
      exact absurd hgt (not_lt.mpr hle)
  | case2 dt hle =>
    have hstep : shakeSteps dt = [dt] := by
      rw [shakeSteps, dif_neg hle]
    refine ⟨?_, ?_, ⟨0, ?_, ?_, ?_⟩, fun _ => hstep⟩
    · intro x hx
      rw [hstep] at hx
      rcases List.mem_singleton.mp hx with rfl
      exact le_of_not_lt hle
    · rw [hstep]
      simp
    · rw [hstep]
      simp
    · simpa using hdt
    · simpa using le_of_not_lt hle

/-- Witness for C6 at dt = 1/4, whose sub-step schedule is two full steps of
1/10 and a remainder of 1/20. -/
theorem spfx_begin_substeps_witness :
    (0 : ℚ) < 1 / 4 ∧
    ((∀ x ∈ shakeSteps (1 / 4), x ≤ shake_fps_min) ∧
     (shakeSteps (1 / 4)).sum = 1 / 4 ∧
     (∃ n : ℕ, shakeSteps (1 / 4) =
        List.replicate n shake_fps_min ++ [1 / 4 - n * shake_fps_min] ∧
        0 < (1 / 4 : ℚ) - n * shake_fps_min ∧
        (1 / 4 : ℚ) - n * shake_fps_min ≤ shake_fps_min) ∧
     ((1 / 4 : ℚ) ≤ shake_fps_min → shakeSteps (1 / 4) = [1 / 4])) :=
  ⟨by norm_num, spfx_begin_substeps (1 / 4) (by norm_num)⟩

/-! ## Theorems — rendering -/

/-- Truncation toward zero agrees with the floor on non-negative values. -/
theorem c_trunc_nonneg_eq_floor (q : ℚ) (h : 0 ≤ q) : c_trunc q = ⌊q⌋ :=
  if_neg (not_lt.mpr h)

/-- The C fmod of a non-negative numerator by a positive divisor lies in
[0, divisor). -/
theorem fmodQ_nonneg_bounds (x y : ℚ) (hx : 0 ≤ x) (hy : 0 < y) :
    0 ≤ fmodQ x y ∧ fmodQ x y < y := by
  have hq : 0 ≤ x / y := div_nonneg hx (le_of_lt hy)
  unfold fmodQ
  rw [c_trunc_nonneg_eq_floor _ hq]
  have hxy : x / y * y = x := div_mul_cancel₀ x (ne_of_gt hy)
  have h1 : x - (⌊x / y⌋ : ℚ) * y = y * Int.fract (x / y) := by
    rw [Int.fract, mul_sub, mul_comm y (x / y), hxy]
    ring
  rw [h1]
  constructor
  · exact mul_nonneg (le_of_lt hy) (Int.fract_nonneg _)
  · calc y * Int.fract (x / y) < y * 1 :=
          mul_lt_mul_of_pos_left (Int.fract_lt_one (x / y)) hy
    _ = y := mul_one y

/-- C7: for a live instance whose template is in bounds, rendering unpaused
caches and draws the frame index floor(sx * sy * min(progress, 1)) with
progress = 1 - fmod(timer, anim) / anim, at sprite-sheet cell (column
frame mod sx, row frame / sx), touching nothing else of the instance;
rendering paused reuses the cached lastframe unchanged, leaving the instance
exactly as it was. -/
theorem spfx_render_frame_selection
    (effects : List SPFX_Base) (s : SPFX) (eff : SPFX_Base)
    (he0 : 0 ≤ s.effect) (hget : effects.get? s.effect.toNat = some eff)
    (ht : 0 ≤ s.timer) (ha : 0 < eff.anim) (hsx : 0 < eff.gfx_sx) (hsy : 0 ≤ eff.gfx_sy) :
    (∃ d s2, spfx_render_one false effects s = some (d, s2) ∧
      s2.lastframe =
        ⌊(eff.gfx_sx * eff.gfx_sy : ℚ) * min (1 - fmodQ s.timer eff.anim / eff.anim) 1⌋ ∧
      0 ≤ s2.lastframe ∧
      d.cell_col = s2.lastframe % eff.gfx_sx ∧
      d.cell_row = s2.lastframe / eff.gfx_sx ∧
      s2.pos_x = s.pos_x ∧ s2.pos_y = s.pos_y ∧ s2.timer = s.timer) ∧
    (∃ d s2, spfx_render_one true effects s = some (d, s2) ∧
      s2 = s ∧
      d.cell_col = Int.tmod s.lastframe eff.gfx_sx ∧
      d.cell_row = Int.tdiv s.lastframe eff.gfx_sx) := by
  have hb := fmodQ_nonneg_bounds s.timer eff.anim ht ha
  have htime : 0 < 1 - fmodQ s.timer eff.anim / eff.anim := by
    have hlt : fmodQ s.timer eff.anim / eff.anim < 1 := (div_lt_one ha).mpr hb.2
    linarith
  have hq0 : (0 : ℚ) ≤ (eff.gfx_sx * eff.gfx_sy : ℚ) := by
    have h1 : (0 : ℚ) ≤ (eff.gfx_sx : ℚ) := by
      exact_mod_cast le_of_lt hsx
    have h2 : (0 : ℚ) ≤ (eff.gfx_sy : ℚ) := by
      exact_mod_cast hsy
    exact mul_nonneg h1 h2
  have harg : (0 : ℚ) ≤
      (eff.gfx_sx * eff.gfx_sy : ℚ) * min (1 - fmodQ s.timer eff.anim / eff.anim) 1 :=
    mul_nonneg hq0 (le_min (le_of_lt htime) (by norm_num))
  have hframe : spfx_render_frame false eff s =
      ⌊(eff.gfx_sx * eff.gfx_sy : ℚ) * min (1 - fmodQ s.timer eff.anim / eff.anim) 1⌋ := by
    unfold spfx_render_frame
    rw [if_neg (by simp)]
    exact c_trunc_nonneg_eq_floor _ harg
  have hlf0 : 0 ≤ spfx_render_frame false eff s := by
    rw [hframe]
    exact Int.floor_nonneg.mpr harg
  constructor
  · refine ⟨{ x := s.pos_x, y := s.pos_y,
              cell_col := Int.tmod (spfx_render_frame false eff s) eff.gfx_sx,
              cell_row := Int.tdiv (spfx_render_frame false eff s) eff.gfx_sx },
            { s with lastframe := spfx_render_frame false eff s },
            ?_, ?_, ?_, ?_, ?_, rfl, rfl, rfl⟩
    · unfold spfx_render_one
      rw [if_neg (not_lt.mpr he0)]
      simp only [hget]
    · exact hframe
    · exact hlf0
    · exact Int.tmod_eq_emod hlf0 (le_of_lt hsx)
    · exact Int.tdiv_eq_ediv hlf0 (le_of_lt hsx)
  · refine ⟨{ x := s.pos_x, y := s.pos_y,
              cell_col := Int.tmod s.lastframe eff.gfx_sx,
              cell_row := Int.tdiv s.lastframe eff.gfx_sx }, s, ?_, rfl, rfl, rfl⟩
    unfold spfx_render_one
    rw [if_neg (not_lt.mpr he0)]
    simp only [hget]
    rfl

/-- Witness for C7: the catalog scenario of a 4 by 4 sheet with anim 1 at
timer 1/2 draws frame 8 (cell column 0, row 2) unpaused, and reuses the
cached frame 5 paused. -/
theorem spfx_render_frame_selection_witness :
    ((0 : ℤ) ≤ 0 ∧ [(⟨"explosion", 1, 1, 4, 4⟩ : SPFX_Base)].get? (Int.toNat 0) =
        some (⟨"explosion", 1, 1, 4, 4⟩ : SPFX_Base) ∧
      (0 : ℚ) ≤ 1 / 2 ∧ (0 : ℚ) < 1 ∧ (0 : ℤ) < 4 ∧ (0 : ℤ) ≤ 4) ∧
    ((∃ d s2, spfx_render_one false [⟨"explosion", 1, 1, 4, 4⟩]
          ⟨0, 0, 0, 0, 5, 0, 1 / 2⟩ = some (d, s2) ∧
        s2.lastframe = ⌊((4 : ℤ) * (4 : ℤ) : ℚ) * min (1 - fmodQ (1 / 2) 1 / 1) 1⌋ ∧
        0 ≤ s2.lastframe ∧
        d.cell_col = s2.lastframe % (4 : ℤ) ∧
        d.cell_row = s2.lastframe / (4 : ℤ) ∧
        s2.pos_x = 0 ∧ s2.pos_y = 0 ∧ s2.timer = 1 / 2) ∧
      (∃ d s2, spfx_render_one true [⟨"explosion", 1, 1, 4, 4⟩]
          ⟨0, 0, 0, 0, 5, 0, 1 / 2⟩ = some (d, s2) ∧
        s2 = (⟨0, 0, 0, 0, 5, 0, 1 / 2⟩ : SPFX) ∧
        d.cell_col = Int.tmod 5 4 ∧
        d.cell_row = Int.tdiv 5 4)) :=
  ⟨⟨le_refl 0, by decide, by norm_num, by norm_num, by decide, by decide⟩,
    spfx_render_frame_selection [⟨"explosion", 1, 1, 4, 4⟩]
      ⟨0, 0, 0, 0, 5, 0, 1 / 2⟩ ⟨"explosion", 1, 1, 4, 4⟩
      (le_refl 0) (by decide) (by norm_num) (by norm_num) (by decide) (by decide)⟩

/-! ## Theorems — shake settlement and the inactivity invariant -/

/-- The magnitude of a vector on the x axis with a non-negative component is
that component. -/
theorem vmod_single (a : ℝ) (h : 0 ≤ a) : vmod ⟨a, 0⟩ = a := by
  unfold vmod
  rw [show a ^ 2 + (0 : ℝ) ^ 2 = a ^ 2 by ring, Real.sqrt_sq h]

/-- Evaluation of spfx_shake with modifier 1/200 from rest. -/
theorem shake_stepA : spfx_shake shakeConstsEx (1 / 200) shake_init = shakeStateA := by
  norm_num [spfx_shake, shakeConstsEx, shake_init, shakeStateA, ShakeState.mk.injEq]

/-- Evaluation of the first tick of 1/250: the decayed force stays positive,
so the perturbation (at noise phase 1/250, angle 0) kicks the spring. -/
theorem shake_stepB : spfx_updateShake shakeConstsEx (1 / 250) shakeStateA = shakeStateB := by
  norm_num [spfx_updateShake, shakeDecayed, shakeForced, shakeConstsEx, shakeStateA,
    shakeStateB, SHAKE_MASS, ShakeState.mk.injEq, Vec2.mk.injEq,
    Real.cos_zero, Real.sin_zero]

/-- Evaluation of the second tick of 1/250: the force decays to zero, the
settlement check passes and the simulator deactivates with position and
velocity untouched. -/
theorem shake_stepC : spfx_updateShake shakeConstsEx (1 / 250) shakeStateB = shakeStateC := by
  have h1 : vmod ⟨(1 : ℝ) / 156250, 0⟩ = 1 / 156250 := vmod_single _ (by norm_num)
  have h2 : vmod ⟨(1 : ℝ) / 625, 0⟩ = 1 / 625 := vmod_single _ (by norm_num)
  norm_num [spfx_updateShake, shakeDecayed, shakeForced, shakeConstsEx, shakeStateB,
    shakeStateC, ShakeState.mk.injEq, Vec2.mk.injEq, h1, h2]

/-- C3 counterexample: the inactivity invariant fails on the code. From rest,
spfx_shake 1/200 followed by two ticks of 1/250 reaches a state that the
settlement check has deactivated while its position is still 1/156250 away
from the origin: deactivation does not reset the spring to exact rest. -/
theorem shake_inactive_not_rest :
    ¬ (∀ (c : ShakeConsts) (s : ShakeState), ShakeReach c s → s.off = true →
        s.pos.x = 0 ∧ s.pos.y = 0 ∧ s.vel.x = 0 ∧ s.vel.y = 0 ∧ s.force_mod = 0) := by
  intro hclaim
  have h1 : ShakeReach shakeConstsEx shake_init := ShakeReach.init
  have h2 := ShakeReach.shake (1 / 200) (by norm_num) h1
  rw [shake_stepA] at h2
  have h3 := ShakeReach.update (1 / 250) (by norm_num) h2
  rw [shake_stepB] at h3
  have h4 := ShakeReach.update (1 / 250) (by norm_num) h3
  rw [shake_stepC] at h4
  have hx := (hclaim shakeConstsEx shakeStateC h4 rfl).1
  rw [show shakeStateC.pos.x = 1 / 156250 from rfl] at hx
  norm_num at hx

/-- C3 (amended): exact rest does hold for the states spfx_clear produces,
and the reported offset is (0, 0) whenever the simulator is inactive; but a
deactivation by the settlement check of the tick only guarantees position and
velocity magnitudes below 0.01 and a zero force modifier (given the modifier
was non-negative), the spring state being left as it was rather than reset to
exact rest. -/
theorem shake_settlement_amended :
    (∀ s : ShakeState, (spfx_clear_shake s).pos.x = 0 ∧ (spfx_clear_shake s).pos.y = 0 ∧
      (spfx_clear_shake s).vel.x = 0 ∧ (spfx_clear_shake s).vel.y = 0 ∧
      (spfx_clear_shake s).force_mod = 0 ∧ (spfx_clear_shake s).off = true) ∧
    (∀ s : ShakeState, s.off = true → spfx_getShake s = (0, 0)) ∧
    (∀ (c : ShakeConsts) (dt : ℝ) (s : ShakeState),
      s.off = false → 0 ≤ s.force_mod → (spfx_updateShake c dt s).off = true →
      vmod (spfx_updateShake c dt s).pos < 0.01 ∧
      vmod (spfx_updateShake c dt s).vel < 0.01 ∧
      (spfx_updateShake c dt s).force_mod = 0 ∧
      (spfx_updateShake c dt s).pos = s.pos ∧
      (spfx_updateShake c dt s).vel = s.vel) := by
  refine ⟨fun s => ⟨rfl, rfl, rfl, rfl, rfl, rfl⟩,
          fun s hs => by simp [spfx_getShake, hs], ?_⟩
  intro c dt s hoff hfm hres
  by_cases hsettle : ¬ shakeForced c dt s ∧ vmod s.pos < 0.01 ∧ vmod s.vel < 0.01
  · have hu : spfx_updateShake c dt s =
        { s with off := true, force_mod := shakeDecayed c dt s,
                 force_ang := if s.force_ang > 1000 then c.angReset else s.force_ang } := by
      simp only [spfx_updateShake]
      rw [if_neg (by simp [hoff]), if_pos hsettle]
    have hfm0 : shakeDecayed c dt s = 0 := by
      unfold shakeDecayed
      rcases lt_or_eq_of_le hfm with hpos | heq
      · rw [if_pos hpos]
        have h2 : s.force_mod - c.decay * dt < 0 := by
          by_contra hge
          exact hsettle.1 ⟨hpos, hge⟩
        rw [if_pos h2]
      · rw [if_neg (by rw [← heq]; exact lt_irrefl 0)]
        exact heq.symm
    rw [hu]
    exact ⟨hsettle.2.1, hsettle.2.2, hfm0, rfl, rfl⟩
  · have hu : (spfx_updateShake c dt s).off = false := by
      simp only [spfx_updateShake]
      rw [if_neg (by simp [hoff]), if_neg hsettle]
      exact hoff
    rw [hres] at hu
    exact Bool.noConfusion hu

/-- Evaluation of a settling tick from the displaced state shakeStateD. -/
theorem shake_stepD_off : (spfx_updateShake shakeConstsEx 1 shakeStateD).off = true := by
  have h1 : vmod ⟨(1 : ℝ) / 200, 0⟩ = 1 / 200 := vmod_single _ (by norm_num)
  have h2 : vmod ⟨(0 : ℝ), 0⟩ = 0 := vmod_single _ (by norm_num)
  norm_num [spfx_updateShake, shakeDecayed, shakeForced, shakeConstsEx, shakeStateD,
    h1, h2]

/-- Witness for the amended C3 at the displaced state shakeStateD and a tick
of 1, which settles and deactivates the simulator. -/
theorem shake_settlement_amended_witness :
    shakeStateD.off = false ∧ (0 : ℝ) ≤ shakeStateD.force_mod ∧
    (spfx_updateShake shakeConstsEx 1 shakeStateD).off = true ∧
    (vmod (spfx_updateShake shakeConstsEx 1 shakeStateD).pos < 0.01 ∧
     vmod (spfx_updateShake shakeConstsEx 1 shakeStateD).vel < 0.01 ∧
     (spfx_updateShake shakeConstsEx 1 shakeStateD).force_mod = 0 ∧
     (spfx_updateShake shakeConstsEx 1 shakeStateD).pos = shakeStateD.pos ∧
     (spfx_updateShake shakeConstsEx 1 shakeStateD).vel = shakeStateD.vel) :=
  ⟨rfl, le_refl 0, shake_stepD_off,
    shake_settlement_amended.2.2 shakeConstsEx 1 shakeStateD rfl (le_refl 0) shake_stepD_off⟩

end Spfx
